import Mathlib

/-!
Shallow embedding of the discrete-event network simulator (Go, `package main`,
richest variant: layered hosts, event bus, delay-bearing links, learning
switch, router, topology registry).

Modelling conventions:
* Go `string` fields become `String`, `time.Duration` / `time.Time` become
  `Nat` (virtual time); `time.Now()` at a call site becomes an explicit
  `now : Nat` argument.
* Go pointer identity of devices (interface comparison `link.From == from`,
  map keys of type `Device`) is reified as a numeric device id (`Nat`).
* Go maps (`map[string]Device`, `map[Device]*Link`) become association lists
  with map lookup/update semantics; Go map iteration order is randomized, the
  association-list order is a determinization of it.
* The `func()` closure stored in an `Event` (always `l.To.ReceivePacket(p)`)
  is reified as plain data: the target device id and the packet; `Seq` is the
  identity of the closure (each `AddEvent` call site creates a fresh one).
* `fmt.Printf` log lines that report accept/drop/no-route outcomes are
  reified as returned report values; log lines with no decision content are
  dropped.
* A nil-pointer dereference (calling `Transmit` on a nil `*Link`) is modelled
  as `Option.none` for the whole call, since the Go program crashes there.
-/

/-- Packet: payload plus source/destination IP and MAC address fields
(Go struct `Packet`). -/
structure Packet where
  Data : String
  SrcIP : String
  DstIP : String
  SrcMAC : String
  DstMAC : String
deriving DecidableEq, Repr, Inhabited

/-- Verdict of a layer's incoming check: the branch of the `if` in
`HandleIncoming` that was taken (received-for-me log vs. drop log). -/
inductive LayerReport where
  | accepted
  | dropped
deriving DecidableEq, Repr

/-- NetworkLayer: OSI IP layer with a configured name and IP (Go struct
`NetworkLayer`). -/
structure NetworkLayer where
  Name : String
  IP : String
deriving DecidableEq, Repr

/-- `NetworkLayer.HandleOutgoing` sets the packet's source IP to the layer's
IP and returns the updated packet. -/
def NetworkLayer.HandleOutgoing (nl : NetworkLayer) (p : Packet) : Packet :=
  { p with SrcIP := nl.IP }

/-- `NetworkLayer.HandleIncoming` compares the packet's destination IP with
the layer's IP, logs accept or drop accordingly (reified as the
`LayerReport`), and returns the packet unchanged. -/
def NetworkLayer.HandleIncoming (nl : NetworkLayer) (p : Packet) :
    Packet × LayerReport :=
  if p.DstIP = nl.IP then (p, .accepted) else (p, .dropped)

/-- DataLinkLayer: OSI MAC layer with a configured name and MAC (Go struct
`DataLinkLayer`). -/
structure DataLinkLayer where
  Name : String
  MAC : String
deriving DecidableEq, Repr

/-- `DataLinkLayer.HandleOutgoing` sets the packet's source MAC to the
layer's MAC and returns the updated packet. -/
def DataLinkLayer.HandleOutgoing (dl : DataLinkLayer) (p : Packet) : Packet :=
  { p with SrcMAC := dl.MAC }

/-- `DataLinkLayer.HandleIncoming` compares the packet's destination MAC with
the layer's MAC, logs accept or drop accordingly (reified as the
`LayerReport`), and returns the packet unchanged. -/
def DataLinkLayer.HandleIncoming (dl : DataLinkLayer) (p : Packet) :
    Packet × LayerReport :=
  if p.DstMAC = dl.MAC then (p, .accepted) else (p, .dropped)

/-- Layer: the closed set of implementations of the Go `Layer` interface. -/
inductive Layer where
  | network (nl : NetworkLayer)
  | datalink (dl : DataLinkLayer)
deriving DecidableEq, Repr

/-- Interface dispatch of `HandleOutgoing` over the two `Layer` variants. -/
def Layer.HandleOutgoing : Layer → Packet → Packet
  | .network nl, p => nl.HandleOutgoing p
  | .datalink dl, p => dl.HandleOutgoing p

/-- Interface dispatch of `HandleIncoming` over the two `Layer` variants. -/
def Layer.HandleIncoming : Layer → Packet → Packet × LayerReport
  | .network nl, p => nl.HandleIncoming p
  | .datalink dl, p => dl.HandleIncoming p

/-- Host: name, ordered layer stack (lowest first) and optional connected
next-hop device (Go struct `Host`). `Id` reifies the Go pointer identity of
the host, used for link lookups in the topology registry. -/
structure Host where
  Id : Nat
  Name : String
  Layers : List Layer
  ConnectedDev : Option Nat
deriving Repr

/-- Encapsulation loop of `Host.SendPacket`: `for i := len(Layers)-1; i >= 0;
i--` applies `HandleOutgoing` from the highest layer down to the lowest,
threading the packet. -/
def Host.encapsulate (h : Host) (p : Packet) : Packet :=
  h.Layers.foldr (fun layer q => layer.HandleOutgoing q) p

/-- `Host.ReceivePacket` processes the packet through every layer from lowest
to highest (`for _, layer := range h.Layers`), threading the packet and
collecting each layer's accept/drop report in order. The loop is
unconditional: it does not stop at a dropped report. -/
def Host.ReceivePacket (h : Host) (p : Packet) : Packet × List LayerReport :=
  h.Layers.foldl
    (fun acc layer =>
      let pr := layer.HandleIncoming acc.1
      (pr.1, acc.2 ++ [pr.2]))
    (p, [])

/-- Event: a scheduled fire time plus the handler closure (Go struct `Event`
with fields `Time time.Time` and `Handler func()`). The handler — always
`func() { l.To.ReceivePacket(p) }` — is reified as the target device id and
the packet; `Seq` reifies the identity of the closure value so that distinct
`AddEvent` calls produce distinguishable events. -/
structure Event where
  Time : Nat
  Seq : Nat
  Target : Nat
  P : Packet
deriving DecidableEq, Repr, Inhabited

/-- Element read `eq[i]` on the event-queue slice (out of range never occurs
in the reachable calls; `default` stands in for it). -/
def lget (l : List Event) (i : Nat) : Event :=
  l.getD i default

/-- `EventQueue.Swap`: `eq[i], eq[j] = eq[j], eq[i]` — the parallel slice
assignment, both reads on the original slice. -/
def lswap (l : List Event) (i j : Nat) : List Event :=
  (l.set i (lget l j)).set j (lget l i)

/-- `EventQueue.Less`: `eq[i].Time.Before(eq[j].Time)` — a strict comparison
of fire times (and of nothing else). -/
def less (l : List Event) (i j : Nat) : Bool :=
  (lget l i).Time < (lget l j).Time

/-- Loop body of `container/heap`'s `up` (sift-up): repeatedly compare index
`j` with its parent `(j-1)/2` and swap while strictly less. The loop is
expressed with a fuel counter that decreases once per iteration; since the
index strictly decreases each iteration, fuel `j + 1` (as supplied by
`heapPush`) is never exhausted and the recursion stops exactly where the Go
loop breaks (at the root or at a non-less parent). -/
def upGo : Nat → List Event → Nat → List Event
  | 0, l, _ => l
  | _ + 1, l, 0 => l
  | fuel + 1, l, j + 1 =>
    if less l (j + 1) (j / 2) then upGo fuel (lswap l (j / 2) (j + 1)) (j / 2)
    else l

/-- Loop body of `container/heap`'s `down` (sift-down) over the first `n`
elements: pick the lesser child `j` of `i`, swap while the child is strictly
less, continue at `j`. Fuel decreases once per iteration; since `i` strictly
increases and the loop exits once `2*i+1 ≥ n`, fuel `n` (as supplied by
`heapPop`) is never exhausted. -/
def downGo : Nat → List Event → Nat → Nat → List Event
  | 0, l, _, _ => l
  | fuel + 1, l, i, n =>
    if 2 * i + 1 < n then
      let j :=
        if 2 * i + 2 < n ∧ less l (2 * i + 2) (2 * i + 1) then 2 * i + 2
        else 2 * i + 1
      if less l j i then downGo fuel (lswap l i j) j n else l
    else l

/-- `heap.Push` on the event queue: `EventQueue.Push` appends the event to
the slice, then `up` restores the heap shape from the last index. -/
def heapPush (l : List Event) (x : Event) : List Event :=
  upGo (l.length + 1) (l ++ [x]) l.length

/-- `heap.Pop` on the event queue: swap the root with the last element, sift
the new root down over the first `n = len-1` elements, then `EventQueue.Pop`
removes and returns the last element of the slice (the old root). Returns
`none` on the empty queue (`EventBus.Run` only pops while `Len() > 0`). -/
def heapPop : List Event → Option (Event × List Event)
  | [] => none
  | l@(_ :: _) =>
    let n := l.length - 1
    let l2 := downGo n (lswap l 0 n) 0 n
    some (lget l2 n, l2.take n)

/-- EventBus: holds the scheduled event queue (Go struct `EventBus` with its
`EventQueue`). -/
structure EventBus where
  Events : List Event
deriving Repr

/-- `EventBus.AddEvent(delay, handler)`: computes the absolute fire time
`time.Now().Add(delay)` — here `now + delay` — and heap-pushes the event.
`seq`, `target`, `p` are the reified handler closure. -/
def EventBus.AddEvent (eb : EventBus) (now delay : Nat) (seq target : Nat)
    (p : Packet) : EventBus :=
  ⟨heapPush eb.Events ⟨now + delay, seq, target, p⟩⟩

/-- Loop body of `EventBus.Run`: while the queue is non-empty, pop the
earliest event, wait until its fire time (the clock advances to
`max clock event.Time`; Go sleeps when `now.Before(event.Time)` and
otherwise runs immediately at the later wall-clock time), then invoke the
handler. The trace records, per executed event, the clock value at which its
handler ran. Fuel decreases once per pop; since each pop removes exactly one
event, fuel `q.length` (as supplied by `EventBus.Run`) drains the queue
exactly as the Go loop does. -/
def runGo : Nat → Nat → List Event → List (Nat × Event)
  | 0, _, _ => []
  | fuel + 1, clock, q =>
    match heapPop q with
    | none => []
    | some (ev, rest) =>
      (max clock ev.Time, ev) :: runGo fuel (max clock ev.Time) rest

/-- `EventBus.Run` starting from virtual clock `clock`: executes every queued
event in heap-pop order, returning the execution trace. -/
def EventBus.Run (clock : Nat) (eb : EventBus) : List (Nat × Event) :=
  runGo eb.Events.length clock eb.Events

/-- Link: directed connection `From → To` with a fixed propagation delay
(Go struct `Link`, devices reified as ids). -/
structure Link where
  From : Nat
  To : Nat
  Delay : Nat
deriving DecidableEq, Repr, Inhabited

/-- `Link.Transmit` called at virtual time `now`: schedules, via the event
bus, delivery of the packet to the destination device after the link's
delay (`eventBus.AddEvent(l.Delay, func() { l.To.ReceivePacket(p) })`). -/
def Link.Transmit (l : Link) (now seq : Nat) (p : Packet) (eb : EventBus) :
    EventBus :=
  eb.AddEvent now l.Delay seq l.To p

/-- Network: the topology registry owning all devices and links (Go struct
`Network`; devices reified as ids). -/
structure Network where
  Devices : List Nat
  Links : List Link
deriving Repr

/-- `Network.AddDevice` appends a device to the registry. -/
def Network.AddDevice (n : Network) (d : Nat) : Network :=
  { n with Devices := n.Devices ++ [d] }

/-- `Network.AddLink` appends a directed link with the given delay. -/
def Network.AddLink (n : Network) (a b : Nat) (delay : Nat) : Network :=
  { n with Links := n.Links ++ [⟨a, b, delay⟩] }

/-- `Network.GetLink` scans the registered links for the exact directed pair
(`link.From == from && link.To == to`, pointer equality reified as id
equality) and returns the first match, or `nil` — here `none` — logging the
miss, when no such link exists. -/
def Network.GetLink (n : Network) (a b : Nat) : Option Link :=
  n.Links.find? (fun link => link.From == a && link.To == b)

/-- Outcome of `Host.SendPacket` after encapsulation: either one `Transmit`
call on the resolved link, or the logged `LinkNotFound` report (link is
`nil`), or the logged no-connected-device report. In every branch the Go
function returns normally — the program does not terminate. -/
inductive HostSendResult where
  | transmitted (link : Link) (p : Packet)
  | linkNotFound
  | noConnectedDev
deriving DecidableEq, Repr

/-- `Host.SendPacket`: run the encapsulation pipeline (highest layer to
lowest), then resolve the link `(self, ConnectedDev)` in the registry and
transmit on it; when the lookup returns `nil`, log the link-not-found report
and do nothing else; when no next hop is configured, log that instead. -/
def Host.SendPacket (h : Host) (net : Network) (p : Packet) : HostSendResult :=
  let p1 := h.encapsulate p
  match h.ConnectedDev with
  | some d =>
    match net.GetLink h.Id d with
    | some link => .transmitted link p1
    | none => .linkNotFound
  | none => .noConnectedDev

/-- Go map read `m[k]` with `ok` flag, on the association-list reification of
the map. -/
def alookup {β : Type} (k : String) : List (String × β) → Option β
  | [] => none
  | (k1, v) :: t => if k1 = k then some v else alookup k t

/-- Go map read keyed by device id (for `Switch.Links : map[Device]*Link`). -/
def dlookup {β : Type} (k : Nat) : List (Nat × β) → Option β
  | [] => none
  | (k1, v) :: t => if k1 = k then some v else dlookup k t

/-- Go map write `m[k] = v` on the association-list reification: overwrite
the binding when the key is present, otherwise add it. -/
def aupdate {β : Type} (k : String) (v : β) :
    List (String × β) → List (String × β)
  | [] => [(k, v)]
  | (k1, v1) :: t => if k1 = k then (k, v) :: t else (k1, v1) :: aupdate k v t

/-- Switch: static port table (MAC → device), learned MAC table
(MAC → device) and per-device outbound links (Go struct `Switch`). -/
structure Switch where
  Name : String
  Ports : List (String × Nat)
  MACTable : List (String × Nat)
  Links : List (Nat × Link)
deriving Repr

/-- Learning step at the top of `Switch.SendPacket`: when the frame's source
MAC is a key of the static port table, record
`MACTable[p.SrcMAC] = Ports[p.SrcMAC]`; otherwise leave the switch
unchanged. The forwarding that follows never writes switch state. -/
def Switch.stepState (s : Switch) (p : Packet) : Switch :=
  match alookup p.SrcMAC s.Ports with
  | some dev => { s with MACTable := aupdate p.SrcMAC dev s.MACTable }
  | none => s

/-- Broadcast loop of `Switch.SendPacket`: `for mac, dev := range s.Ports`,
skipping the entry whose MAC equals the frame's source, looking up
`s.Links[dev]` and transmitting on it. A missing link entry yields the nil
`*Link` zero value and the `Transmit` call dereferences nil — the whole call
is `none`. -/
def transmitAll (links : List (Nat × Link)) (p : Packet) (src : String) :
    List (String × Nat) → Option (List (Link × Packet))
  | [] => some []
  | (mac, dev) :: rest =>
    if mac = src then transmitAll links p src rest
    else
      match dlookup dev links, transmitAll links p src rest with
      | some link, some calls => some ((link, p) :: calls)
      | _, _ => none

/-- `Switch.SendPacket`: learn the source MAC (when it is a port-table key),
then forward — unicast on `s.Links[dst]` when the destination MAC is in the
learned table, otherwise broadcast to every port entry except the frame's
source. The result is the updated switch and the list of `Transmit` calls
`(link, packet)`; `none` reifies the nil-link crash. -/
def Switch.SendPacket (s : Switch) (p : Packet) :
    Option (Switch × List (Link × Packet)) :=
  let s1 := s.stepState p
  match alookup p.DstMAC s1.MACTable with
  | some dst =>
    match dlookup dst s1.Links with
    | some link => some (s1, [(link, p)])
    | none => none
  | none =>
    match transmitAll s1.Links p p.SrcMAC s1.Ports with
    | some calls => some (s1, calls)
    | none => none

/-- State evolution of a switch across a sequence of processed frames
(`ReceivePacket` delegates each arriving frame to `SendPacket`, whose only
state effect is `stepState`). -/
def Switch.runFrames (s : Switch) : List Packet → Switch
  | [] => s
  | p :: ps => Switch.runFrames (s.stepState p) ps

/-- Router: static routing table IP → next-hop device (Go struct `Router`). -/
structure Router where
  Name : String
  Ports : List (String × Nat)
deriving Repr

/-- Action taken by `Router.SendPacket`: either the single direct
`nextHop.ReceivePacket(p)` forward, or the logged no-route report. -/
inductive RouterAction where
  | forwardTo (dev : Nat) (p : Packet)
  | noRoute
deriving DecidableEq, Repr

/-- `Router.SendPacket`: look up the packet's destination IP in the static
routing table; forward directly to the next hop when present, otherwise log
`NoRoute` and do nothing. The router value is returned unchanged in both
branches — the Go method never writes `r`. -/
def Router.SendPacket (r : Router) (p : Packet) : Router × RouterAction :=
  match alookup p.DstIP r.Ports with
  | some nextHop => (r, .forwardTo nextHop p)
  | none => (r, .noRoute)

/-- Setting an index to the element already there is the identity. -/
theorem set_lget_self (l : List Event) (i : Nat) : l.set i (lget l i) = l := by
  induction l generalizing i with
  | nil => rfl
  | cons a t ih =>
    cases i with
    | zero => rfl
    | succ k => simpa [lget, List.getD_cons_succ] using ih k

/-- A slice swap preserves the slice length. -/
theorem lswap_length (l : List Event) (i j : Nat) :
    (lswap l i j).length = l.length := by
  simp [lswap]

/-- Moving the element at a valid index to the front while overwriting that
index is a permutation of putting the new element in front. -/
theorem perm_head_set (l : List Event) (k : Nat) (a : Event)
    (hk : k < l.length) :
    List.Perm (lget l k :: l.set k a) (a :: l) := by
  induction l generalizing k with
  | nil => exact absurd hk (by simp)
  | cons b t ih =>
    cases k with
    | zero => exact List.Perm.swap a b t
    | succ m =>
      have hm : m < t.length := by simpa using hk
      have h1 : List.Perm (lget t m :: b :: t.set m a)
          (b :: lget t m :: t.set m a) := List.Perm.swap b (lget t m) _
      have h2 : List.Perm (b :: lget t m :: t.set m a) (b :: a :: t) :=
        (ih m hm).cons b
      have h3 : List.Perm (b :: a :: t) (a :: b :: t) := List.Perm.swap a b t
      simpa [lget, List.getD_cons_succ] using (h1.trans h2).trans h3

/-- Reading an index untouched by a set. -/
theorem lget_set_ne (l : List Event) (i j : Nat) (a : Event) (hij : i ≠ j) :
    lget (l.set i a) j = lget l j := by
  simp [lget, List.getD_eq_getElem?_getD, List.getElem?_set_ne hij]

/-- The slice swap of two valid indices is a permutation of the slice. -/
theorem lswap_perm (l : List Event) (i j : Nat) (hi : i < l.length)
    (hj : j < l.length) : List.Perm (lswap l i j) l := by
  by_cases hij : i = j
  · subst hij
    simp [lswap, List.set_set, set_lget_self]
  · have hjm : j < (l.set i (lget l j)).length := by simpa using hj
    have key1 : List.Perm
        (lget (l.set i (lget l j)) j :: (l.set i (lget l j)).set j (lget l i))
        (lget l i :: l.set i (lget l j)) :=
      perm_head_set (l.set i (lget l j)) j (lget l i) hjm
    rw [lget_set_ne l i j _ hij] at key1
    have key2 : List.Perm (lget l i :: l.set i (lget l j)) (lget l j :: l) :=
      perm_head_set l i (lget l j) hi
    have := key1.trans key2
    exact (List.perm_cons (lget l j)).mp this

/-- Sift-up only swaps in-range elements: it permutes the slice. -/
theorem upGo_perm (fuel : Nat) (l : List Event) (j : Nat)
    (hj : j < l.length) : List.Perm (upGo fuel l j) l := by
  induction fuel generalizing l j with
  | zero => exact List.Perm.refl l
  | succ fuel ih =>
    cases j with
    | zero => exact List.Perm.refl l
    | succ m =>
      show List.Perm
        (if less l (m + 1) (m / 2) then upGo fuel (lswap l (m / 2) (m + 1)) (m / 2)
         else l) l
      split
      · have hm2 : m / 2 < l.length :=
          lt_of_le_of_lt (Nat.div_le_self m 2) (lt_trans (Nat.lt_succ_self m) hj)
        have hlen : (lswap l (m / 2) (m + 1)).length = l.length := lswap_length l _ _
        have h1 : List.Perm (upGo fuel (lswap l (m / 2) (m + 1)) (m / 2))
            (lswap l (m / 2) (m + 1)) := ih _ _ (by rw [hlen]; exact hm2)
        exact h1.trans (lswap_perm l (m / 2) (m + 1) hm2 hj)
      · exact List.Perm.refl l

/-- Sift-down over the first `n ≤ length` elements permutes the slice. -/
theorem downGo_perm (fuel : Nat) (l : List Event) (i n : Nat)
    (hn : n ≤ l.length) : List.Perm (downGo fuel l i n) l := by
  induction fuel generalizing l i with
  | zero => exact List.Perm.refl l
  | succ fuel ih =>
    have step : ∀ j, 2 * i + 1 < n → j < n →
        List.Perm (if less l j i then downGo fuel (lswap l i j) j n else l) l := by
      intro j hin hjn
      have hi : i < l.length := by omega
      have hjl : j < l.length := by omega
      split
      · have hlen : (lswap l i j).length = l.length := lswap_length l i j
        exact (ih (lswap l i j) j (by omega)).trans (lswap_perm l i j hi hjl)
      · exact List.Perm.refl l
    show List.Perm
      (if 2 * i + 1 < n then
        if less l
            (if 2 * i + 2 < n ∧ less l (2 * i + 2) (2 * i + 1) then 2 * i + 2
             else 2 * i + 1) i then
          downGo fuel
            (lswap l i
              (if 2 * i + 2 < n ∧ less l (2 * i + 2) (2 * i + 1) then 2 * i + 2
               else 2 * i + 1))
            (if 2 * i + 2 < n ∧ less l (2 * i + 2) (2 * i + 1) then 2 * i + 2
             else 2 * i + 1) n
        else l
       else l) l
    split
    · next hin =>
      refine step _ hin ?_
      split
      · next hcase => exact hcase.1
      · exact hin
    · exact List.Perm.refl l

/-- `heap.Push` yields a permutation of the event prepended to the queue. -/
theorem heapPush_perm (l : List Event) (x : Event) :
    List.Perm (heapPush l x) (x :: l) := by
  have h1 : List.Perm (upGo (l.length + 1) (l ++ [x]) l.length) (l ++ [x]) :=
    upGo_perm _ _ _ (by simp)
  exact h1.trans (List.perm_append_singleton x l)

/-- `heap.Pop` returns some event together with the rest, and the original
queue is a permutation of the event consed on the rest. -/
theorem heapPop_perm (l : List Event) (ev : Event) (rest : List Event)
    (h : heapPop l = some (ev, rest)) : List.Perm l (ev :: rest) := by
  match l with
  | [] => simp [heapPop] at h
  | a :: t =>
    have hlen0 : (a :: t).length - 1 = t.length := by simp
    set n := t.length with hn
    set l2 := downGo n (lswap (a :: t) 0 n) 0 n with hl2
    have hswaplen : (lswap (a :: t) 0 n).length = n + 1 := by
      rw [lswap_length]; simp [hn]
    have hperm2 : List.Perm l2 (lswap (a :: t) 0 n) :=
      downGo_perm n _ 0 n (by omega)
    have hperm1 : List.Perm (lswap (a :: t) 0 n) (a :: t) :=
      lswap_perm (a :: t) 0 n (by simp) (by simp [hn])
    have hperm : List.Perm l2 (a :: t) := hperm2.trans hperm1
    have hl2len : l2.length = n + 1 := by
      rw [hperm.length_eq]; simp [hn]
    have hpop : heapPop (a :: t) = some (lget l2 n, l2.take n) := rfl
    rw [hpop] at h
    have hpair := Option.some.inj h
    have hev : lget l2 n = ev := congrArg Prod.fst hpair
    have hrest : l2.take n = rest := congrArg Prod.snd hpair
    have hnlt : n < l2.length := by omega
    have hgetn : lget l2 n = l2[n] := List.getD_eq_getElem l2 default hnlt
    have hdecomp : l2 = l2.take n ++ [l2[n]] := by
      conv_lhs => rw [← List.take_append_drop n l2]
      congr 1
      rw [List.drop_eq_getElem_cons hnlt]
      have : l2.drop (n + 1) = [] := by
        rw [← hl2len, List.drop_length]
      rw [this]
    have : List.Perm (a :: t) (l2.take n ++ [l2[n]]) := by
      rw [← hdecomp]; exact hperm.symm
    refine this.trans ?_
    rw [← hev, ← hrest, hgetn]
    exact List.perm_append_singleton _ _

/-- Popping from a non-empty queue succeeds. -/
theorem heapPop_isSome (l : List Event) (hne : l ≠ []) :
    ∃ ev rest, heapPop l = some (ev, rest) := by
  match l with
  | [] => exact absurd rfl hne
  | a :: t => exact ⟨_, _, rfl⟩

/-- Popping removes exactly one event. -/
theorem heapPop_length (l : List Event) (ev : Event) (rest : List Event)
    (h : heapPop l = some (ev, rest)) : rest.length + 1 = l.length := by
  have := (heapPop_perm l ev rest h).length_eq
  simpa using this.symm

/-- With fuel equal to the queue length, the run loop executes a permutation
of the queued events: every scheduled event is consumed exactly once. -/
theorem runGo_perm (fuel : Nat) :
    ∀ (c : Nat) (q : List Event), q.length = fuel →
      List.Perm ((runGo fuel c q).map Prod.snd) q := by
  induction fuel with
  | zero =>
    intro c q hq
    rw [List.length_eq_zero] at hq
    subst hq
    exact List.Perm.refl _
  | succ fuel ih =>
    intro c q hq
    have hne : q ≠ [] := by
      intro hnil; rw [hnil] at hq; simp at hq
    obtain ⟨ev, rest, hpop⟩ := heapPop_isSome q hne
    have hrest : rest.length = fuel := by
      have := heapPop_length q ev rest hpop
      omega
    show List.Perm ((match heapPop q with
      | none => []
      | some (ev, rest) =>
        (max c ev.Time, ev) :: runGo fuel (max c ev.Time) rest).map Prod.snd) q
    rw [hpop]
    simp only [List.map_cons]
    exact ((ih _ rest hrest).cons ev).trans (heapPop_perm q ev rest hpop).symm

/-- Every event in the run trace is executed at a clock value no earlier
than its fire time (the loop waits when the clock is behind the fire
time, and otherwise runs at the already-later clock). -/
theorem runGo_time (fuel : Nat) :
    ∀ (c : Nat) (q : List Event) (te : Nat × Event), te ∈ runGo fuel c q →
      te.2.Time ≤ te.1 := by
  induction fuel with
  | zero => intro c q te h; simp [runGo] at h
  | succ fuel ih =>
    intro c q te h
    revert h
    show te ∈ (match heapPop q with
      | none => []
      | some (ev, rest) =>
        (max c ev.Time, ev) :: runGo fuel (max c ev.Time) rest) → _
    match hpop : heapPop q with
    | none => intro h; simp at h
    | some (ev, rest) =>
      intro h
      rcases List.mem_cons.mp h with heq | hmem
      · subst heq; exact Nat.le_max_right c ev.Time
      · exact ih _ rest te hmem

/-- A successful map read returns a binding present in the association
list (String keys). -/
theorem alookup_mem {β : Type} (k : String) (v : β) :
    ∀ m : List (String × β), alookup k m = some v → (k, v) ∈ m := by
  intro m
  induction m with
  | nil => intro h; simp [alookup] at h
  | cons e t ih =>
    intro h
    rw [show alookup k (e :: t) =
      (if e.1 = k then some e.2 else alookup k t) from rfl] at h
    split at h
    · next heq =>
      have hv : e.2 = v := Option.some.inj h
      have he : e = (k, v) := by
        cases e
        simp_all
      rw [← he]
      exact List.mem_cons_self e t
    · exact List.mem_cons.mpr (Or.inr (ih h))

/-- A successful map read returns a binding present in the association
list (device-id keys). -/
theorem dlookup_mem {β : Type} (k : Nat) (v : β) :
    ∀ m : List (Nat × β), dlookup k m = some v → (k, v) ∈ m := by
  intro m
  induction m with
  | nil => intro h; simp [dlookup] at h
  | cons e t ih =>
    intro h
    rw [show dlookup k (e :: t) =
      (if e.1 = k then some e.2 else dlookup k t) from rfl] at h
    split at h
    · next heq =>
      have hv : e.2 = v := Option.some.inj h
      have he : e = (k, v) := by
        cases e
        simp_all
      rw [← he]
      exact List.mem_cons_self e t
    · exact List.mem_cons.mpr (Or.inr (ih h))

/-- Reading back the key just written. -/
theorem alookup_aupdate_self {β : Type} (k : String) (v : β)
    (m : List (String × β)) : alookup k (aupdate k v m) = some v := by
  induction m with
  | nil => simp [aupdate, alookup]
  | cons e t ih =>
    rw [show aupdate k v (e :: t) =
      (if e.1 = k then (k, v) :: t else e :: aupdate k v t) from rfl]
    split
    · rw [show alookup k ((k, v) :: t) =
        (if k = k then some v else alookup k t) from rfl, if_pos rfl]
    · next he =>
      rw [show alookup k (e :: aupdate k v t) =
        (if e.1 = k then some e.2 else alookup k (aupdate k v t)) from rfl,
        if_neg he]
      exact ih

/-- Writing one key leaves reads of other keys unchanged. -/
theorem alookup_aupdate_ne {β : Type} (k k1 : String) (v : β)
    (m : List (String × β)) (hne : k1 ≠ k) :
    alookup k1 (aupdate k v m) = alookup k1 m := by
  induction m with
  | nil =>
    show (if k = k1 then some v else none) = none
    rw [if_neg (fun hh => hne hh.symm)]
  | cons e t ih =>
    rw [show aupdate k v (e :: t) =
      (if e.1 = k then (k, v) :: t else e :: aupdate k v t) from rfl]
    split
    · next he =>
      show (if k = k1 then some v else alookup k1 t) =
        (if e.1 = k1 then some e.2 else alookup k1 t)
      rw [if_neg (fun hh => hne hh.symm), if_neg (fun hh => hne (he ▸ hh).symm)]
    · show (if e.1 = k1 then some e.2 else alookup k1 (aupdate k v t)) =
        (if e.1 = k1 then some e.2 else alookup k1 t)
      rw [ih]

/-- Every binding of the updated map is the new binding or an old one. -/
theorem mem_aupdate {β : Type} (k : String) (v : β) (e : String × β) :
    ∀ m : List (String × β), e ∈ aupdate k v m → e = (k, v) ∨ e ∈ m := by
  intro m
  induction m with
  | nil => intro h; simp [aupdate] at h; left; exact h
  | cons e1 t ih =>
    intro h
    rw [show aupdate k v (e1 :: t) =
      (if e1.1 = k then (k, v) :: t else e1 :: aupdate k v t) from rfl] at h
    split at h
    · rcases List.mem_cons.mp h with heq | hmem
      · left; exact heq
      · right; exact List.mem_cons.mpr (Or.inr hmem)
    · rcases List.mem_cons.mp h with heq | hmem
      · right; exact List.mem_cons.mpr (Or.inl heq)
      · rcases ih hmem with h1 | h2
        · left; exact h1
        · right; exact List.mem_cons.mpr (Or.inr h2)

/-- The learning step never touches the static port table. -/
theorem stepState_Ports (s : Switch) (p : Packet) :
    (s.stepState p).Ports = s.Ports := by
  unfold Switch.stepState
  split <;> rfl

/-- The learning step never touches the link map. -/
theorem stepState_Links (s : Switch) (p : Packet) :
    (s.stepState p).Links = s.Links := by
  unfold Switch.stepState
  split <;> rfl

/-- Processing a frame sequence never touches the static port table. -/
theorem runFrames_Ports (frames : List Packet) :
    ∀ s : Switch, (s.runFrames frames).Ports = s.Ports := by
  induction frames with
  | nil => intro s; rfl
  | cons p ps ih =>
    intro s
    show ((s.stepState p).runFrames ps).Ports = s.Ports
    rw [ih, stepState_Ports]

/-- Processing a frame sequence never touches the link map. -/
theorem runFrames_Links (frames : List Packet) :
    ∀ s : Switch, (s.runFrames frames).Links = s.Links := by
  induction frames with
  | nil => intro s; rfl
  | cons p ps ih =>
    intro s
    show ((s.stepState p).runFrames ps).Links = s.Links
    rw [ih, stepState_Links]

/-- A learned entry that agrees with the port table survives any single
learning step: the step writes either a different key or the same value. -/
theorem stepState_keeps_entry (s : Switch) (q : Packet) (X : String) (dev : Nat)
    (hPX : alookup X s.Ports = some dev)
    (hM : alookup X s.MACTable = some dev) :
    alookup X (s.stepState q).MACTable = some dev := by
  unfold Switch.stepState
  cases hq : alookup q.SrcMAC s.Ports with
  | none => exact hM
  | some d =>
    show alookup X (aupdate q.SrcMAC d s.MACTable) = some dev
    by_cases hx : q.SrcMAC = X
    · subst hx
      rw [hq] at hPX
      rw [alookup_aupdate_self]
      exact congrArg some (Option.some.inj hPX)
    · rw [alookup_aupdate_ne _ _ _ _ (fun hh => hx hh.symm)]
      exact hM

/-- A learned entry that agrees with the port table survives any sequence of
processed frames. -/
theorem runFrames_keeps_entry (frames : List Packet) :
    ∀ (s : Switch) (X : String) (dev : Nat),
      alookup X s.Ports = some dev →
      alookup X s.MACTable = some dev →
      alookup X (s.runFrames frames).MACTable = some dev := by
  induction frames with
  | nil => intro s X dev _ hM; exact hM
  | cons p ps ih =>
    intro s X dev hPX hM
    show alookup X ((s.stepState p).runFrames ps).MACTable = some dev
    exact ih (s.stepState p) X dev (by rw [stepState_Ports]; exact hPX)
      (stepState_keeps_entry s p X dev hPX hM)

/-- When every non-ingress port entry has a registered link, the broadcast
loop succeeds and produces exactly one transmit call per such entry, on that
entry's registered link, carrying the broadcast packet. -/
theorem transmitAll_forall (links : List (Nat × Link)) (p : Packet)
    (src : String) :
    ∀ ports : List (String × Nat),
      (∀ e ∈ ports, e.1 ≠ src → (dlookup e.2 links).isSome = true) →
      ∃ calls, transmitAll links p src ports = some calls ∧
        List.Forall₂
          (fun (e : String × Nat) (call : Link × Packet) =>
            dlookup e.2 links = some call.1 ∧ call.2 = p)
          (ports.filter (fun e => e.1 != src)) calls := by
  intro ports
  induction ports with
  | nil =>
    intro _
    exact ⟨[], rfl, by simp⟩
  | cons e rest ih =>
    intro h
    obtain ⟨mac, dev⟩ := e
    by_cases hm : mac = src
    · obtain ⟨calls, hcalls, hfa⟩ := ih (fun e he hne => h e (List.mem_cons.mpr (Or.inr he)) hne)
      refine ⟨calls, ?_, ?_⟩
      · show (if mac = src then transmitAll links p src rest else _) = some calls
        rw [if_pos hm]
        exact hcalls
      · have : ((mac, dev) :: rest).filter (fun e => e.1 != src) =
            rest.filter (fun e => e.1 != src) := by
          simp [List.filter_cons, hm]
        rw [this]
        exact hfa
    · have hsome : (dlookup dev links).isSome = true :=
        h (mac, dev) (List.mem_cons_self _ _) hm
      obtain ⟨link, hlink⟩ := Option.isSome_iff_exists.mp hsome
      obtain ⟨calls, hcalls, hfa⟩ := ih (fun e he hne => h e (List.mem_cons.mpr (Or.inr he)) hne)
      refine ⟨(link, p) :: calls, ?_, ?_⟩
      · show (if mac = src then transmitAll links p src rest
          else match dlookup dev links, transmitAll links p src rest with
            | some link, some calls => some ((link, p) :: calls)
            | _, _ => none) = some ((link, p) :: calls)
        rw [if_neg hm, hlink, hcalls]
      · have : ((mac, dev) :: rest).filter (fun e => e.1 != src) =
            (mac, dev) :: rest.filter (fun e => e.1 != src) := by
          simp [List.filter_cons, hm]
        rw [this]
        exact List.Forall₂.cons ⟨hlink, rfl⟩ hfa

/-- Zeta-expanded unfolding of `Switch.SendPacket`. -/
theorem SendPacket_eq (s : Switch) (p : Packet) :
    Switch.SendPacket s p =
      match alookup p.DstMAC (s.stepState p).MACTable with
      | some dst =>
        match dlookup dst (s.stepState p).Links with
        | some link => some (s.stepState p, [(link, p)])
        | none => none
      | none =>
        match transmitAll (s.stepState p).Links p p.SrcMAC (s.stepState p).Ports with
        | some calls => some (s.stepState p, calls)
        | none => none := rfl

/-- Claim C1: the spec requires that on an address mismatch decapsulation
stops and no higher layer processes the packet. The code violates this: a
host whose data-link layer drops an inbound packet (wrong destination MAC)
still runs its network layer on it, which accepts the packet (matching
destination IP) and reaches the code's delivery point. The report list of
the receive loop is `[dropped, accepted]` — a higher layer processed content
below a reported drop. -/
theorem mismatch_does_not_stop_processing :
    (Host.ReceivePacket
      ⟨2, "Host2", [.datalink ⟨"DataLink", "M2"⟩, .network ⟨"Network", "I2"⟩],
        none⟩
      ⟨"hello", "I1", "I2", "M1", "M9"⟩).2 = [.dropped, .accepted] := by decide

/-- Claim C2: the spec requires equal-fire-time events to run in insertion
order. The code violates this: three events with the same fire time 5,
inserted with sequence numbers 1, 2, 3, are executed by the heap-backed run
loop in order 1, 3, 2. (The comparison `Less` is strict on times, so the
heap gives no stability guarantee for ties.) -/
theorem equal_time_events_not_in_insertion_order :
    ((EventBus.Run 0
        (((⟨[]⟩ : EventBus).AddEvent 0 5 1 0 default).AddEvent 0 5 2 0
          default |>.AddEvent 0 5 3 0 default)).map
      (fun te => te.2.Seq)) = [1, 3, 2] := by decide

/-- Claim C9 (confirmed): `NetworkLayer.HandleOutgoing` rewrites only the
source IP field (to the layer's IP), `DataLinkLayer.HandleOutgoing` rewrites
only the source MAC field (to the layer's MAC), and both incoming handlers
return the packet with every field unchanged. -/
theorem layer_frame_effect (nl : NetworkLayer) (dl : DataLinkLayer)
    (p : Packet) :
    nl.HandleOutgoing p = { p with SrcIP := nl.IP } ∧
    dl.HandleOutgoing p = { p with SrcMAC := dl.MAC } ∧
    (nl.HandleIncoming p).1 = p ∧
    (dl.HandleIncoming p).1 = p := by
  refine ⟨rfl, rfl, ?_, ?_⟩
  · unfold NetworkLayer.HandleIncoming
    split <;> rfl
  · unfold DataLinkLayer.HandleIncoming
    split <;> rfl

/-- Claim C7 (confirmed): when the packet's destination IP has no entry in
the router's static routing table, `Router.SendPacket` reports `NoRoute`,
performs zero forward calls, and returns the router state unchanged; the
function is total, so no exception is raised. -/
theorem router_noroute (r : Router) (p : Packet)
    (h : alookup p.DstIP r.Ports = none) :
    Router.SendPacket r p = (r, RouterAction.noRoute) := by
  unfold Router.SendPacket
  rw [h]

/-- Witness for Claim C7 at a concrete router and packet. -/
theorem router_noroute_witness :
    alookup "10.0.0.9" ([("10.0.0.1", 5)] : List (String × Nat)) = none ∧
    Router.SendPacket ⟨"R1", [("10.0.0.1", 5)]⟩
        ⟨"d", "s", "10.0.0.9", "m1", "m2"⟩ =
      (⟨"R1", [("10.0.0.1", 5)]⟩, RouterAction.noRoute) :=
  ⟨by decide, router_noroute ⟨"R1", [("10.0.0.1", 5)]⟩
    ⟨"d", "s", "10.0.0.9", "m1", "m2"⟩ (by decide)⟩

/-- Claim C8 (confirmed): `Network.GetLink` is an exact directed-pair lookup
over the registered links — it returns `none` exactly when no registered
link has the requested endpoints, and any link it returns is registered with
exactly those endpoints; and a host whose configured next hop has no
registered link from it gets the `LinkNotFound` outcome from `SendPacket` —
no transmit, while the function still returns (no program termination). -/
theorem getlink_exact_and_linknotfound (net : Network) (a b : Nat) (h : Host)
    (d : Nat) (p : Packet) (hcd : h.ConnectedDev = some d)
    (hnone : Network.GetLink net h.Id d = none) :
    (Network.GetLink net a b = none ↔
      ∀ link ∈ net.Links, ¬(link.From = a ∧ link.To = b)) ∧
    (∀ link, Network.GetLink net a b = some link →
      link ∈ net.Links ∧ link.From = a ∧ link.To = b) ∧
    Host.SendPacket h net p = HostSendResult.linkNotFound := by
  refine ⟨?_, ?_, ?_⟩
  · unfold Network.GetLink
    rw [List.find?_eq_none]
    constructor
    · intro hall link hmem hpair
      have := hall link hmem
      simp [hpair.1, hpair.2] at this
    · intro hall link hmem
      have := hall link hmem
      simp only [Bool.and_eq_true, beq_iff_eq]
      intro hpair
      exact this ⟨hpair.1, hpair.2⟩
  · intro link hfind
    have hmem : link ∈ net.Links := List.mem_of_find?_eq_some hfind
    have hpred := List.find?_some hfind
    simp only [Bool.and_eq_true, beq_iff_eq] at hpred
    exact ⟨hmem, hpred.1, hpred.2⟩
  · unfold Host.SendPacket
    rw [hcd]
    show (match net.GetLink h.Id d with
      | some link => HostSendResult.transmitted link (h.encapsulate p)
      | none => HostSendResult.linkNotFound) = HostSendResult.linkNotFound
    rw [hnone]

/-- Witness for Claim C8 at a concrete topology: host 3 is connected to
device 2 but only the link 1 → 2 is registered. -/
theorem getlink_exact_and_linknotfound_witness :
    (⟨3, "H", [], some 2⟩ : Host).ConnectedDev = some 2 ∧
    Network.GetLink ⟨[1, 2, 3], [⟨1, 2, 50⟩]⟩ 3 2 = none ∧
    Host.SendPacket ⟨3, "H", [], some 2⟩ ⟨[1, 2, 3], [⟨1, 2, 50⟩]⟩
        ⟨"d", "", "", "", ""⟩ =
      HostSendResult.linkNotFound :=
  ⟨rfl, by decide,
    (getlink_exact_and_linknotfound ⟨[1, 2, 3], [⟨1, 2, 50⟩]⟩ 5 6
      ⟨3, "H", [], some 2⟩ 2 ⟨"d", "", "", "", ""⟩ rfl (by decide)).2.2⟩

/-- Counterexample to Claim C4 as stated: the sender's stack is
[DataLink(mac=M1), Network(ip=I1)] and the packet is addressed to M2/I2.
A receiving host configured with the sender's M1 and I1 — "the matching M
and I" of the claim — does NOT accept the outgoing packet: its data-link
layer reports a drop, because acceptance is checked against the packet's
destination addresses, which the source-stamping round trip never touches. -/
theorem roundtrip_matching_sender_addresses_fails :
    LayerReport.dropped ∈
      (Host.ReceivePacket
        ⟨1, "HostR", [.datalink ⟨"DataLink", "M1"⟩, .network ⟨"Network", "I1"⟩],
          none⟩
        (Host.encapsulate
          ⟨0, "HostS", [.datalink ⟨"DataLink", "M1"⟩, .network ⟨"Network", "I1"⟩],
            none⟩
          ⟨"d", "", "I2", "", "M2"⟩)).2 := by decide

/-- Claim C4 as amended: a host with stack [DataLink(mac=M), Network(ip=I)]
sending p produces an outgoing packet with source MAC M and source IP I, and
a host whose configured MAC and IP equal the packet's destination MAC and
destination IP accepts the outgoing packet — every layer reports accept, no
layer reports a drop. -/
theorem roundtrip_amended (hs hr : Host) (M I M2 I2 dn nn dn2 nn2 : String)
    (p : Packet)
    (hls : hs.Layers = [.datalink ⟨dn, M⟩, .network ⟨nn, I⟩])
    (hlr : hr.Layers = [.datalink ⟨dn2, M2⟩, .network ⟨nn2, I2⟩])
    (hm : M2 = p.DstMAC) (hi : I2 = p.DstIP) :
    (hs.encapsulate p).SrcMAC = M ∧ (hs.encapsulate p).SrcIP = I ∧
    (hr.ReceivePacket (hs.encapsulate p)).2 = [.accepted, .accepted] := by
  have henc : hs.encapsulate p = { p with SrcIP := I, SrcMAC := M } := by
    rw [Host.encapsulate, hls]
    rfl
  refine ⟨by rw [henc], by rw [henc], ?_⟩
  rw [Host.ReceivePacket, hlr, henc]
  simp [Layer.HandleIncoming, DataLinkLayer.HandleIncoming,
    NetworkLayer.HandleIncoming, hm, hi]

/-- Witness for the amended Claim C4 at a concrete pair of hosts: the
receiver's MAC and IP equal the packet's destination addresses. -/
theorem roundtrip_amended_witness :
    ((⟨0, "HS", [.datalink ⟨"DL", "M1"⟩, .network ⟨"NW", "I1"⟩], none⟩ :
        Host).Layers = [.datalink ⟨"DL", "M1"⟩, .network ⟨"NW", "I1"⟩]) ∧
    ((⟨1, "HR", [.datalink ⟨"DL", "M2"⟩, .network ⟨"NW", "I2"⟩], none⟩ :
        Host).Layers = [.datalink ⟨"DL", "M2"⟩, .network ⟨"NW", "I2"⟩]) ∧
    ("M2" = (⟨"d", "", "I2", "", "M2"⟩ : Packet).DstMAC) ∧
    ("I2" = (⟨"d", "", "I2", "", "M2"⟩ : Packet).DstIP) ∧
    ((Host.encapsulate
        ⟨0, "HS", [.datalink ⟨"DL", "M1"⟩, .network ⟨"NW", "I1"⟩], none⟩
        ⟨"d", "", "I2", "", "M2"⟩).SrcMAC = "M1" ∧
      (Host.encapsulate
        ⟨0, "HS", [.datalink ⟨"DL", "M1"⟩, .network ⟨"NW", "I1"⟩], none⟩
        ⟨"d", "", "I2", "", "M2"⟩).SrcIP = "I1" ∧
      (Host.ReceivePacket
        ⟨1, "HR", [.datalink ⟨"DL", "M2"⟩, .network ⟨"NW", "I2"⟩], none⟩
        (Host.encapsulate
          ⟨0, "HS", [.datalink ⟨"DL", "M1"⟩, .network ⟨"NW", "I1"⟩], none⟩
          ⟨"d", "", "I2", "", "M2"⟩)).2 = [.accepted, .accepted]) :=
  ⟨rfl, rfl, rfl, rfl,
    roundtrip_amended _ _ "M1" "I1" "M2" "I2" "DL" "NW" "DL" "NW"
      ⟨"d", "", "I2", "", "M2"⟩ rfl rfl rfl rfl⟩

/-- Claim C6 (confirmed): when the frame's destination MAC is absent from
the learned table (checked after the source-learning step, as the code
does), and every non-ingress port entry has a registered link, the switch
broadcasts: the transmit calls are in one-to-one correspondence with the
port entries whose MAC differs from the frame's source MAC — each call uses
that entry's registered link and carries the frame — and there are no other
calls. -/
theorem broadcast_unknown_destination (s : Switch) (p : Packet)
    (hdst : alookup p.DstMAC (s.stepState p).MACTable = none)
    (hlinks : ∀ e ∈ s.Ports, e.1 ≠ p.SrcMAC →
      (dlookup e.2 s.Links).isSome = true) :
    ∃ calls, Switch.SendPacket s p = some (s.stepState p, calls) ∧
      List.Forall₂
        (fun (e : String × Nat) (call : Link × Packet) =>
          dlookup e.2 s.Links = some call.1 ∧ call.2 = p)
        (s.Ports.filter (fun e => e.1 != p.SrcMAC)) calls := by
  obtain ⟨calls, hcalls, hfa⟩ :=
    transmitAll_forall s.Links p p.SrcMAC s.Ports hlinks
  refine ⟨calls, ?_, hfa⟩
  rw [SendPacket_eq, hdst, stepState_Links, stepState_Ports, hcalls]

/-- Witness for Claim C6: a frame from A to the unseen MAC Z on a two-port
switch is transmitted exactly on B's link. -/
theorem broadcast_unknown_destination_witness :
    (alookup "Z"
      ((⟨"SW", [("A", 1), ("B", 2)], [],
          [(1, ⟨9, 1, 10⟩), (2, ⟨9, 2, 10⟩)]⟩ : Switch).stepState
        ⟨"d", "", "", "A", "Z"⟩).MACTable = none) ∧
    (∀ e ∈ [("A", 1), ("B", 2)], e.1 ≠ "A" →
      (dlookup e.2 [(1, (⟨9, 1, 10⟩ : Link)), (2, ⟨9, 2, 10⟩)]).isSome = true) ∧
    (∃ calls,
      Switch.SendPacket
          ⟨"SW", [("A", 1), ("B", 2)], [], [(1, ⟨9, 1, 10⟩), (2, ⟨9, 2, 10⟩)]⟩
          ⟨"d", "", "", "A", "Z"⟩ =
        some ((⟨"SW", [("A", 1), ("B", 2)], [],
            [(1, ⟨9, 1, 10⟩), (2, ⟨9, 2, 10⟩)]⟩ : Switch).stepState
          ⟨"d", "", "", "A", "Z"⟩, calls) ∧
      List.Forall₂
        (fun (e : String × Nat) (call : Link × Packet) =>
          dlookup e.2 [(1, (⟨9, 1, 10⟩ : Link)), (2, ⟨9, 2, 10⟩)] = some call.1 ∧
            call.2 = ⟨"d", "", "", "A", "Z"⟩)
        (([("A", 1), ("B", 2)] : List (String × Nat)).filter
          (fun e => e.1 != "A")) calls) :=
  ⟨by decide, by decide,
    broadcast_unknown_destination
      ⟨"SW", [("A", 1), ("B", 2)], [], [(1, ⟨9, 1, 10⟩), (2, ⟨9, 2, 10⟩)]⟩
      ⟨"d", "", "", "A", "Z"⟩ (by decide) (by decide)⟩

/-- Counterexample to Claim C5 as stated: a frame whose source MAC X is not
a key of the static port table is processed successfully (the switch
broadcasts it), yet no learned-table entry for X is recorded — the switch
does not record learned-table[source] = ingress device for every processed
frame. -/
theorem learning_skips_unknown_source :
    (Switch.SendPacket ⟨"SW", [("A", 1)], [], [(1, ⟨9, 1, 10⟩)]⟩
        ⟨"d", "", "", "X", "Y"⟩).map
      (fun r => alookup "X" r.1.MACTable) = some none := by decide

/-- Claim C5 as amended: when the frame's source MAC is a key of the static
port table, the switch records learned-table[source] = the port table's
device for that MAC (and when it is not, the switch records nothing); after
a frame whose source X is in the port table has been observed, a later frame
destined to X — whatever frames were processed in between — is unicast: a
single transmit call on the learned device's registered link, never a
broadcast. -/
theorem learning_then_unicast (s0 : Switch) (dev : Nat) (link : Link)
    (frames : List Packet) (p1 p2 : Packet)
    (hport : alookup p1.SrcMAC s0.Ports = some dev)
    (hdst : p2.DstMAC = p1.SrcMAC)
    (hlink : dlookup dev s0.Links = some link) :
    alookup p1.SrcMAC (s0.stepState p1).MACTable = some dev ∧
    Switch.SendPacket ((s0.stepState p1).runFrames frames) p2 =
      some (((s0.stepState p1).runFrames frames).stepState p2, [(link, p2)]) ∧
    ∀ (s : Switch) (q : Packet),
      alookup q.SrcMAC s.Ports = none → s.stepState q = s := by
  have hstep1 : alookup p1.SrcMAC (s0.stepState p1).MACTable = some dev := by
    unfold Switch.stepState
    rw [hport]
    exact alookup_aupdate_self p1.SrcMAC dev s0.MACTable
  refine ⟨hstep1, ?_, ?_⟩
  · have hPX2 : alookup p1.SrcMAC ((s0.stepState p1).runFrames frames).Ports =
        some dev := by
      rw [runFrames_Ports, stepState_Ports]
      exact hport
    have hinv : alookup p1.SrcMAC
        ((s0.stepState p1).runFrames frames).MACTable = some dev :=
      runFrames_keeps_entry frames (s0.stepState p1) p1.SrcMAC dev
        (by rw [stepState_Ports]; exact hport) hstep1
    have hfinal : alookup p1.SrcMAC
        (((s0.stepState p1).runFrames frames).stepState p2).MACTable =
          some dev :=
      stepState_keeps_entry _ p2 p1.SrcMAC dev hPX2 hinv
    have hlinks2 : dlookup dev
        (((s0.stepState p1).runFrames frames).stepState p2).Links =
          some link := by
      rw [stepState_Links, runFrames_Links, stepState_Links]
      exact hlink
    rw [SendPacket_eq, hdst, hfinal]
    show (match dlookup dev
        (((s0.stepState p1).runFrames frames).stepState p2).Links with
      | some link =>
        some (((s0.stepState p1).runFrames frames).stepState p2, [(link, p2)])
      | none => none) =
      some (((s0.stepState p1).runFrames frames).stepState p2, [(link, p2)])
    rw [hlinks2]
  · intro s q h
    unfold Switch.stepState
    rw [h]

/-- Witness for the amended Claim C5: host A's MAC is learned from the
first frame, survives an intervening frame from B, and the reply to A is
unicast on A's link. -/
theorem learning_then_unicast_witness :
    (alookup "A" ([("A", 1), ("B", 2)] : List (String × Nat)) = some 1) ∧
    ((⟨"d2", "", "", "B", "A"⟩ : Packet).DstMAC =
      (⟨"d1", "", "", "A", "B"⟩ : Packet).SrcMAC) ∧
    (dlookup 1 [(1, (⟨9, 1, 10⟩ : Link)), (2, ⟨9, 2, 10⟩)] = some ⟨9, 1, 10⟩) ∧
    (alookup "A"
        ((⟨"SW", [("A", 1), ("B", 2)], [],
            [(1, ⟨9, 1, 10⟩), (2, ⟨9, 2, 10⟩)]⟩ : Switch).stepState
          ⟨"d1", "", "", "A", "B"⟩).MACTable = some 1 ∧
      Switch.SendPacket
          (((⟨"SW", [("A", 1), ("B", 2)], [],
              [(1, ⟨9, 1, 10⟩), (2, ⟨9, 2, 10⟩)]⟩ : Switch).stepState
            ⟨"d1", "", "", "A", "B"⟩).runFrames [⟨"dm", "", "", "B", "A"⟩])
          ⟨"d2", "", "", "B", "A"⟩ =
        some ((((⟨"SW", [("A", 1), ("B", 2)], [],
              [(1, ⟨9, 1, 10⟩), (2, ⟨9, 2, 10⟩)]⟩ : Switch).stepState
            ⟨"d1", "", "", "A", "B"⟩).runFrames
              [⟨"dm", "", "", "B", "A"⟩]).stepState ⟨"d2", "", "", "B", "A"⟩,
          [(⟨9, 1, 10⟩, ⟨"d2", "", "", "B", "A"⟩)]) ∧
      ∀ (s : Switch) (q : Packet),
        alookup q.SrcMAC s.Ports = none → s.stepState q = s) :=
  ⟨by decide, rfl, by decide,
    learning_then_unicast
      ⟨"SW", [("A", 1), ("B", 2)], [], [(1, ⟨9, 1, 10⟩), (2, ⟨9, 2, 10⟩)]⟩
      1 ⟨9, 1, 10⟩ [⟨"dm", "", "", "B", "A"⟩] ⟨"d1", "", "", "A", "B"⟩
      ⟨"d2", "", "", "B", "A"⟩ (by decide) rfl (by decide)⟩

/-- Claim C3 (confirmed): a `Transmit` on a link with delay d at virtual
time t schedules exactly one delivery event — fire time t + d, targeting the
link's destination, carrying the packet — and a full run of the event bus
consumes that event exactly once, executing the delivery to the destination
at a virtual time no earlier than t + d. (`seq` identifies the handler
closure created by this `Transmit`; freshness says no pending event is that
closure.) -/
theorem transmit_delivers_exactly_once (l : Link) (t c seq : Nat) (p : Packet)
    (eb : EventBus) (hfresh : ∀ e ∈ eb.Events, e.Seq ≠ seq) :
    List.Perm (l.Transmit t seq p eb).Events
      (⟨t + l.Delay, seq, l.To, p⟩ :: eb.Events) ∧
    ((EventBus.Run c (l.Transmit t seq p eb)).filter
      (fun te => te.2.Seq == seq)).length = 1 ∧
    ∀ te ∈ EventBus.Run c (l.Transmit t seq p eb),
      te.2.Seq = seq → te.2.Target = l.To ∧ te.2.P = p ∧ t + l.Delay ≤ te.1 := by
  have hpush : List.Perm (l.Transmit t seq p eb).Events
      (⟨t + l.Delay, seq, l.To, p⟩ :: eb.Events) :=
    heapPush_perm eb.Events ⟨t + l.Delay, seq, l.To, p⟩
  have hrun : List.Perm
      ((EventBus.Run c (l.Transmit t seq p eb)).map Prod.snd)
      (l.Transmit t seq p eb).Events :=
    runGo_perm (l.Transmit t seq p eb).Events.length c
      (l.Transmit t seq p eb).Events rfl
  have hperm : List.Perm
      ((EventBus.Run c (l.Transmit t seq p eb)).map Prod.snd)
      (⟨t + l.Delay, seq, l.To, p⟩ :: eb.Events) := hrun.trans hpush
  refine ⟨hpush, ?_, ?_⟩
  · rw [← List.countP_eq_length_filter]
    have h1 : (EventBus.Run c (l.Transmit t seq p eb)).countP
        (fun te => te.2.Seq == seq) =
        ((EventBus.Run c (l.Transmit t seq p eb)).map Prod.snd).countP
          (fun (e : Event) => e.Seq == seq) :=
      (List.countP_map (fun (e : Event) => e.Seq == seq) Prod.snd _).symm
    rw [h1, hperm.countP_eq]
    have h0 : eb.Events.countP (fun (e : Event) => e.Seq == seq) = 0 :=
      List.countP_eq_zero.mpr (fun e he => by
        simpa using hfresh e he)
    rw [List.countP_cons_of_pos _ _ (by simp), h0]
  · intro te hte hseq
    have htime : te.2.Time ≤ te.1 :=
      runGo_time (l.Transmit t seq p eb).Events.length c
        (l.Transmit t seq p eb).Events te hte
    have hmem : te.2 ∈ (⟨t + l.Delay, seq, l.To, p⟩ :: eb.Events :
        List Event) :=
      hperm.mem_iff.mp (List.mem_map_of_mem Prod.snd hte)
    rcases List.mem_cons.mp hmem with heq | hold
    · refine ⟨by rw [heq], by rw [heq], ?_⟩
      have : te.2.Time = t + l.Delay := by rw [heq]
      omega
    · exact absurd hseq (hfresh te.2 hold)

/-- Witness for Claim C3: a transmit at time 3 on a delay-5 link into an
empty event bus. -/
theorem transmit_delivers_exactly_once_witness :
    (∀ e ∈ (⟨[]⟩ : EventBus).Events, e.Seq ≠ 7) ∧
    (List.Perm
        ((⟨1, 2, 5⟩ : Link).Transmit 3 7 ⟨"d", "", "", "", ""⟩ ⟨[]⟩).Events
        (⟨3 + (⟨1, 2, 5⟩ : Link).Delay, 7, (⟨1, 2, 5⟩ : Link).To,
          ⟨"d", "", "", "", ""⟩⟩ :: (⟨[]⟩ : EventBus).Events) ∧
      ((EventBus.Run 0
          ((⟨1, 2, 5⟩ : Link).Transmit 3 7 ⟨"d", "", "", "", ""⟩ ⟨[]⟩)).filter
        (fun te => te.2.Seq == 7)).length = 1 ∧
      ∀ te ∈ EventBus.Run 0
          ((⟨1, 2, 5⟩ : Link).Transmit 3 7 ⟨"d", "", "", "", ""⟩ ⟨[]⟩),
        te.2.Seq = 7 → te.2.Target = (⟨1, 2, 5⟩ : Link).To ∧
          te.2.P = ⟨"d", "", "", "", ""⟩ ∧
          3 + (⟨1, 2, 5⟩ : Link).Delay ≤ te.1) :=
  ⟨by simp, transmit_delivers_exactly_once ⟨1, 2, 5⟩ 3 0 7
    ⟨"d", "", "", "", ""⟩ ⟨[]⟩ (by simp)⟩

/-- Claim C10 (confirmed): `Switch.SendPacket` reaches no nil link — its
unicast and broadcast lookups all succeed — whenever every device of the
static port table and every device of the learned table has an entry in the
link map; and the precondition is needed: a switch whose port device 1 has
no link entry crashes (nil `Transmit`) on a broadcast frame. -/
theorem switch_forwarding_link_safety :
    (∀ (s : Switch) (p : Packet),
      (∀ e ∈ s.Ports, (dlookup e.2 s.Links).isSome = true) →
      (∀ e ∈ s.MACTable, (dlookup e.2 s.Links).isSome = true) →
      (Switch.SendPacket s p).isSome = true) ∧
    Switch.SendPacket ⟨"SW", [("A", 1)], [], []⟩ ⟨"d", "", "", "B", "C"⟩ =
      none := by
  constructor
  · intro s p h1 h2
    have hM1 : ∀ e ∈ (s.stepState p).MACTable,
        (dlookup e.2 s.Links).isSome = true := by
      intro e
      unfold Switch.stepState
      cases hq : alookup p.SrcMAC s.Ports with
      | none => exact h2 e
      | some d =>
        intro he
        rcases mem_aupdate p.SrcMAC d e s.MACTable he with heq | hmem
        · rw [heq]
          exact h1 (p.SrcMAC, d) (alookup_mem p.SrcMAC d s.Ports hq)
        · exact h2 e hmem
    rw [SendPacket_eq]
    cases hdst : alookup p.DstMAC (s.stepState p).MACTable with
    | some dst =>
      have hsome : (dlookup dst s.Links).isSome = true :=
        hM1 (p.DstMAC, dst) (alookup_mem p.DstMAC dst _ hdst)
      obtain ⟨link, hlink⟩ := Option.isSome_iff_exists.mp hsome
      show (match dlookup dst (s.stepState p).Links with
        | some link => some (s.stepState p, [(link, p)])
        | none => none).isSome = true
      rw [stepState_Links, hlink]
      rfl
    | none =>
      have hport : ∀ e ∈ (s.stepState p).Ports, e.1 ≠ p.SrcMAC →
          (dlookup e.2 (s.stepState p).Links).isSome = true := by
        rw [stepState_Ports, stepState_Links]
        exact fun e he _ => h1 e he
      obtain ⟨calls, hcalls, _⟩ :=
        transmitAll_forall (s.stepState p).Links p p.SrcMAC
          (s.stepState p).Ports hport
      show (match transmitAll (s.stepState p).Links p p.SrcMAC
          (s.stepState p).Ports with
        | some calls => some (s.stepState p, calls)
        | none => none).isSome = true
      rw [hcalls]
      rfl
  · rfl

/-- Witness for Claim C10: the same port table with device 1's link
registered satisfies the precondition, and the same frame forwards without
reaching a nil link. -/
theorem switch_forwarding_link_safety_witness :
    (∀ e ∈ ([("A", 1)] : List (String × Nat)),
      (dlookup e.2 [(1, (⟨9, 1, 10⟩ : Link))]).isSome = true) ∧
    (∀ e ∈ ([] : List (String × Nat)),
      (dlookup e.2 [(1, (⟨9, 1, 10⟩ : Link))]).isSome = true) ∧
    (Switch.SendPacket ⟨"SW", [("A", 1)], [], [(1, ⟨9, 1, 10⟩)]⟩
      ⟨"d", "", "", "B", "C"⟩).isSome = true :=
  ⟨by decide, by decide,
    switch_forwarding_link_safety.1
      ⟨"SW", [("A", 1)], [], [(1, ⟨9, 1, 10⟩)]⟩ ⟨"d", "", "", "B", "C"⟩
      (by decide) (by decide)⟩
